import Mathlib

/-!
Verification of the Spiral-SRV live-backup orchestrator
(`scripts/virsh-hotbkp.py` and `scripts/kvm_backup_live.py`)
against its natural-language specification.

The Python code is shallowly embedded: pure helpers become Lean
functions over explicit data (directory listings, domain XML,
byte counts), and the `run_backup` control flow becomes a total
function from an abstract world to an exit code plus an ordered
event trace.  All definitions are executable so that concrete
counterexamples evaluate by kernel reduction.
-/

set_option maxRecDepth 40000

namespace SpiralSRV

/-! ### Character/string helpers

Python string operations (`in`, `endswith`, `os.path.basename`,
`.strip().lower()`) re-implemented over `List Char` so they reduce
in the kernel. -/

def lowerChar (c : Char) : Char :=
  if 'A' ≤ c && c ≤ 'Z' then Char.ofNat (c.toNat + 32) else c

def isSpaceChar (c : Char) : Bool :=
  c = ' ' || c = '\t' || c = '\n' || c = '\r'

/-- Python `s.strip().lower()` as used on the interactive answer. -/
def stripLower (s : String) : String :=
  ⟨(((s.data.dropWhile isSpaceChar).reverse.dropWhile isSpaceChar).reverse).map lowerChar⟩

def listStarts : List Char → List Char → Bool
  | [], _ => true
  | _ :: _, [] => false
  | a :: as, b :: bs => a = b && listStarts as bs

def listHasSub (pat : List Char) : List Char → Bool
  | [] => listStarts pat []
  | c :: cs => listStarts pat (c :: cs) || listHasSub pat cs

/-- Python `pat in s` (substring containment). -/
def containsSub (s pat : String) : Bool :=
  listHasSub pat.data s.data

/-- Python `s.endswith(suffix)`. -/
def strEnds (s suffix : String) : Bool :=
  listStarts suffix.data.reverse s.data.reverse

def basenameAux : List Char → List Char → List Char
  | [], acc => acc
  | c :: cs, acc => if c = '/' then basenameAux cs [] else basenameAux cs (acc ++ [c])

/-- Python `os.path.basename`: the part of a path after the last slash. -/
def basenameOf (p : String) : String :=
  ⟨basenameAux p.data []⟩

/-! ### Shared string constants of the scripts -/

def bakSuffix : String := ".bak"

def snapshotMarker : String := "_snapshot_"

def yesAnswer : String := "y"

/-! ### Retention engine

Embeds `manage_retention(backup_dir, retention_days)` (identical
classification logic in `kvm_backup_live.py` lines 115-161 and
`virsh-hotbkp.py` lines 142-203): list the directory, restrict to
regular files whose name ends in `.bak`, mark those with mtime
strictly before the cutoff for removal, then delete exactly the
marked set.  The directory is a list of entries; `mtime` and the
cutoff are epoch seconds. -/

structure Entry where
  name : String
  isFile : Bool
  mtime : Int
deriving DecidableEq, Repr

def isBakFile (e : Entry) : Bool :=
  e.isFile && strEnds e.name bakSuffix

/-- The set of entries `manage_retention` deletes (`for_removal`). -/
def retentionRemoved (dirExists : Bool) (entries : List Entry) (cutoff : Int) : List Entry :=
  if !dirExists then []
  else (entries.filter isBakFile).filter (fun e => decide (e.mtime < cutoff))

/-- The directory contents after `manage_retention` has run. -/
def retentionSurvivors (dirExists : Bool) (entries : List Entry) (cutoff : Int) : List Entry :=
  entries.filter (fun e => decide (e ∉ retentionRemoved dirExists entries cutoff))

/-! ### Domain inspector

Embeds `get_disk_details_from_xml(dom, target_devs_list)`
(`kvm_backup_live.py` lines 78-113, `virsh-hotbkp.py` lines 98-140).
The domain XML is the list of its `<disk>` elements, each with an
optional `<target dev=...>` and an optional `<source file=...>`;
the size of the backing file (read later by `os.path.getsize`) is
carried alongside.  The Python loop walks the disk elements keeping a
`target_set` of still-unresolved requested devices; an element whose
target is in the set and which has a source file resolves that device
and removes it from the set.  On a non-empty final set the function
fails naming the leftover set; otherwise it returns the mapping. -/

structure XmlDisk where
  targetDev : Option String
  sourceFile : Option String
  sourceSize : Nat
deriving DecidableEq, Repr

structure DiskDetail where
  dev : String
  path : String
  size : Nat
deriving DecidableEq, Repr

def resolveDisks : List XmlDisk → List DiskDetail → List String → (List DiskDetail × List String)
  | [], acc, remaining => (acc, remaining)
  | d :: ds, acc, remaining =>
    match d.targetDev with
    | none => resolveDisks ds acc remaining
    | some name =>
      if name ∈ remaining then
        match d.sourceFile with
        | none => resolveDisks ds acc remaining
        | some path => resolveDisks ds (acc ++ [⟨name, path, d.sourceSize⟩]) (remaining.erase name)
      else resolveDisks ds acc remaining

def get_disk_details_from_xml (xml : List XmlDisk) (targetDevs : List String) :
    Except (List String) (List DiskDetail) :=
  let r := resolveDisks xml [] targetDevs.dedup
  if r.2.isEmpty then .ok r.1 else .error r.2

/-- A requested device is resolvable when some XML disk element names it
and carries a source file (the condition under which the Python loop
removes it from `target_set`). -/
def Resolvable (xml : List XmlDisk) (dev : String) : Prop :=
  ∃ d ∈ xml, d.targetDev = some dev ∧ d.sourceFile.isSome = true

instance (xml : List XmlDisk) (dev : String) : Decidable (Resolvable xml dev) := by
  unfold Resolvable; infer_instance

/-! ### Pre-flight validator -/

/-- The exact rational margin `0.10` that the decimal literal
`SAFETY_MARGIN_PERCENT = 0.10` (both scripts, line 18) denotes; the
program stores and computes with its IEEE binary64 rounding (see
`floatMarginNum` and `check_available_space`). -/
def SAFETY_MARGIN_PERCENT : ℚ := 10 / 100

/-- The exact rational value `sum(sizes) * (1 + 0.10)` that the spec's
boundary statement for `final_size_needed` refers to.  The program
evaluates this formula in double precision, so its computed requirement
can differ from this exact value by about one part in `2 ^ 52`. -/
def final_size_needed (sizes : List Nat) : ℚ :=
  ((sizes.sum : ℚ)) * (1 + SAFETY_MARGIN_PERCENT)

/-! #### IEEE binary64 arithmetic of the space check

`check_available_space` computes `total_size_needed * (1 +
SAFETY_MARGIN_PERCENT)` in Python float (binary64) arithmetic:
`0.10` is the double nearest `1/10`, `1 + 0.10` rounds again, the
integer byte total is converted to a double (round to nearest, ties to
even; `OverflowError` if it exceeds the double range, which the
function's `except` arm turns into `False`), the product is rounded
once more (an infinite product also yields `False` via the comparison),
and the final `final_size_needed > available_space` comparison between
a float and a Python int is exact.  The model below mirrors each of
these steps with exact integer arithmetic: a double value is kept as
`mantissa * 2 ^ exponent` and every rounding is performed explicitly. -/

/-- Number of binary digits of `n`, with explicit fuel so that it
reduces in the kernel; exact whenever `n < 2 ^ fuel`. -/
def bitlenFuel : Nat → Nat → Nat
  | 0, _ => 0
  | fuel + 1, n => if n = 0 then 0 else bitlenFuel fuel (n / 2) + 1

def bitlen (n : Nat) : Nat := bitlenFuel 1200 n

/-- The binary64 value of Python's `1 + 0.10`, scaled by `2 ^ 52`:
`0.10` rounds to `3602879701896397 / 2 ^ 55`, and adding `1` rounds the
sum to `4953959590107546 / 2 ^ 52`.  Note `10 * floatMarginNum =
11 * 2 ^ 52 + 4`, so the stored factor is slightly above the exact
`1.1`. -/
def floatMarginNum : Nat := 4953959590107546

/-- Round the integer `M` to at most 53 significant bits, nearest value
and ties to even (the binary64 significand rounding), returning
`(m, shift)` whose value is `m * 2 ^ shift`. -/
def round53 (M : Nat) : Nat × Nat :=
  if bitlen M ≤ 53 then (M, 0)
  else
    (if 2 ^ (bitlen M - 54) < M % 2 ^ (bitlen M - 53) then M / 2 ^ (bitlen M - 53) + 1
     else if M % 2 ^ (bitlen M - 53) < 2 ^ (bitlen M - 54) then M / 2 ^ (bitlen M - 53)
     else if (M / 2 ^ (bitlen M - 53)) % 2 = 0 then M / 2 ^ (bitlen M - 53)
     else M / 2 ^ (bitlen M - 53) + 1,
     bitlen M - 53)

/-- The integer value `m * 2 ^ shift` of `round53 M`: the nearest
53-significant-bit value to `M`. -/
def round53val (M : Nat) : Nat :=
  (round53 M).1 * 2 ^ (round53 M).2

/-- `check_available_space` (`kvm_backup_live.py` lines 163-184,
`virsh-hotbkp.py` lines 206-242): sum the source disk sizes, evaluate
`total * (1 + 0.10)` in binary64 (see the section comment above), and
fail (`return False`, via the raised exception) exactly when the
computed requirement exceeds the free bytes at the destination.
`fl(total) = mt * 2 ^ st`; the exact product with the margin constant
is `(mt * floatMarginNum) * 2 ^ (st - 52)`, rounded once more to
`mp * 2 ^ (sp + st - 52)`; the two branches compare that value with
`freeBytes` exactly (cross-multiplying when the exponent is negative).
Totals whose double conversion or product overflow the binary64 range
make the check fail (`OverflowError` / infinity comparison); the
`2 ^ 1100` guard also keeps `bitlen`'s fuel exact. -/
def check_available_space (freeBytes : Nat) (sizes : List Nat) : Bool :=
  if 2 ^ 1100 ≤ sizes.sum then false
  else
    if 2 ^ 1024 ≤ (round53 sizes.sum).1 * 2 ^ (round53 sizes.sum).2 then false
    else
      if 52 ≤ (round53 ((round53 sizes.sum).1 * floatMarginNum)).2 + (round53 sizes.sum).2 then
        if 2 ^ 1024 ≤ (round53 ((round53 sizes.sum).1 * floatMarginNum)).1 *
            2 ^ ((round53 ((round53 sizes.sum).1 * floatMarginNum)).2 +
              (round53 sizes.sum).2 - 52) then false
        else !(decide (freeBytes < (round53 ((round53 sizes.sum).1 * floatMarginNum)).1 *
          2 ^ ((round53 ((round53 sizes.sum).1 * floatMarginNum)).2 +
            (round53 sizes.sum).2 - 52)))
      else !(decide (freeBytes *
          2 ^ (52 - ((round53 ((round53 sizes.sum).1 * floatMarginNum)).2 +
            (round53 sizes.sum).2)) <
        (round53 ((round53 sizes.sum).1 * floatMarginNum)).1))

/-- The snapshot-in-snapshot guard of `run_backup`
(`kvm_backup_live.py` lines 429-432, `virsh-hotbkp.py` lines 607-632):
a resolved disk is dirty when `"_snapshot_" in os.path.basename(path)`. -/
def isDirty (d : DiskDetail) : Bool :=
  containsSub (basenameOf d.path) snapshotMarker

/-! ### The `run_backup` pipeline

`run_backup` of `kvm_backup_live.py` (lines 390-456) as a total
function from an abstract world to `(exit code, ordered event trace)`.
World fields stand for the outcomes of the external calls the code
makes, in the order the code makes them; the trace records every
externally visible mutating action.  A `KeyboardInterrupt` is only
raisable inside the long-running backup phase (the only blocking
stage), which the `except KeyboardInterrupt` arm maps to exit 130;
`except Exception` maps any other failure to exit 1. -/

inductive Ev
  | connect
  | domJobAbort
  | retentionDelete (name : String)
  | mkdirBackupDir
  | snapshotCreate
  | backupSubmit
  | artifactWrite (dev : String)
  | blockCommit
  | snapMetaDelete
  | readConfirm
deriving DecidableEq, Repr

inductive PhaseResult
  | success
  | error
  | interrupt
deriving DecidableEq, Repr

inductive BackupMode
  | libvirt
  | snapshot
deriving DecidableEq, Repr

structure World where
  connOk : Bool
  domainExists : Bool
  jobActive : Bool
  jobAbortOk : Bool
  backupDirExists : Bool
  backupDirEntries : List Entry
  xmlDisks : List XmlDisk
  freeBytes : Nat
  phase : PhaseResult
deriving Repr

structure Config where
  diskTargets : List String
  retentionCutoff : Int
  mode : BackupMode
deriving Repr

/-- Externally visible actions of the executed backup phase: Strategy A
submits one hypervisor job; Strategy B snapshots, writes one artifact
per disk, pivots, and deletes the snapshot metadata.  On error or
interrupt the phase stops after the action that was in flight. -/
def phaseEvents (mode : BackupMode) (details : List DiskDetail) : PhaseResult → List Ev
  | .success =>
    match mode with
    | .libvirt => [.backupSubmit]
    | .snapshot =>
      .snapshotCreate :: (details.map (fun d => Ev.artifactWrite d.dev)) ++
        [.blockCommit, .snapMetaDelete]
  | .error =>
    match mode with
    | .libvirt => [.backupSubmit]
    | .snapshot => [.snapshotCreate]
  | .interrupt =>
    match mode with
    | .libvirt => [.backupSubmit, .domJobAbort]
    | .snapshot => [.snapshotCreate]

def exitOfPhase : PhaseResult → Nat
  | .success => 0
  | .error => 1
  | .interrupt => 130

def run_backup (w : World) (c : Config) : Nat × List Ev :=
  if !w.connOk then (1, [.connect])
  else if !w.domainExists then (1, [.connect])
  else
    let jobEvs : List Ev := if w.jobActive then [.domJobAbort] else []
    if w.jobActive && !w.jobAbortOk then (1, .connect :: jobEvs)
    else
      let retEvs := (retentionRemoved w.backupDirExists w.backupDirEntries
        c.retentionCutoff).map (fun e => Ev.retentionDelete e.name)
      let preEvs := Ev.connect :: jobEvs ++ retEvs ++ [Ev.mkdirBackupDir]
      match get_disk_details_from_xml w.xmlDisks c.diskTargets with
      | .error _ => (1, preEvs)
      | .ok details =>
        if details.any isDirty then (1, preEvs)
        else if !check_available_space w.freeBytes (details.map (fun d => d.size)) then
          (1, preEvs)
        else
          (exitOfPhase w.phase, preEvs ++ phaseEvents c.mode details w.phase)

/-- Summary of the fatal pre-flight outcomes of `run_backup`: connection
failure, unknown domain, failed abort of a stuck job, unresolvable
disks, a dirty disk path, or insufficient space. -/
def validationFailsB (w : World) (c : Config) : Bool :=
  !w.connOk || !w.domainExists || (w.jobActive && !w.jobAbortOk) ||
    (match get_disk_details_from_xml w.xmlDisks c.diskTargets with
     | .error _ => true
     | .ok details =>
       details.any isDirty ||
         !check_available_space w.freeBytes (details.map (fun d => d.size)))

/-- Events that start a snapshot, a hypervisor backup job, or an
artifact write. -/
def isBackupEv : Ev → Bool
  | .snapshotCreate => true
  | .backupSubmit => true
  | .artifactWrite _ => true
  | .blockCommit => true
  | .snapMetaDelete => true
  | _ => false

/-- The `__main__` block (`kvm_backup_live.py` lines 460-481): in
snapshot mode read one confirmation from stdin first; unless it
normalizes to `y`, exit 1 without ever calling `run_backup`. -/
def mainRun (stdinAnswer : String) (w : World) (c : Config) : Nat × List Ev :=
  match c.mode with
  | .snapshot =>
    if stripLower stdinAnswer = yesAnswer then
      let r := run_backup w c
      (r.1, Ev.readConfirm :: r.2)
    else (1, [Ev.readConfirm])
  | .libvirt => run_backup w c

/-! ### Strategy B failure handling

`run_backup_snapshot_rsync` of `virsh-hotbkp.py` (lines 352-523)
together with the outer handlers of `run_backup` (lines 648-668).  The
run processes `n` disks sequentially: snapshot creation, one rsync copy
per disk, one block-commit per disk, snapshot-metadata deletion.  A
failure is a phase plus a kind: `err` models any ordinary `Exception`,
which the function's `except Exception` arm catches — it deletes every
registered `.bak` path that exists and re-raises, so the outer
`except Exception` exits 1; `intr` models `KeyboardInterrupt`, which is
a `BaseException` and therefore NOT caught by `except Exception` — it
propagates directly to the outer `except KeyboardInterrupt`, which
exits 130 without touching the `.bak` files. -/

inductive SnapPhase
  | snapCreate
  | copyPhase (i : Nat)
  | commitPhase (i : Nat)
  | metaDelete
deriving DecidableEq, Repr

inductive FailKind
  | err
  | intr
deriving DecidableEq, Repr

/-- Indices of the destination `.bak` files present on disk when the
given phase is reached: rsync of disk `i` has fully written disks
`0..i-1` and has already created (partially written) disk `i`'s file. -/
def baksAt (n : Nat) : SnapPhase → List Nat
  | .snapCreate => []
  | .copyPhase i => List.range (min (i + 1) n)
  | .commitPhase _ => List.range n
  | .metaDelete => List.range n

/-- Final `(remaining .bak files of this run, process exit code)` of a
Strategy B run that fails (or not) at the given point. -/
def snapshotRsyncRun (n : Nat) (failAt : Option (SnapPhase × FailKind)) : List Nat × Nat :=
  match failAt with
  | none => (List.range n, 0)
  | some (_, .err) => ([], 1)
  | some (ph, .intr) => (baksAt n ph, 130)

/-! ### Grouping key of the specified retention algorithm

The spec's retention algorithm groups artifacts by (calendar day of
the modification time, domain+device identity parsed from the
filename `{domain}-{device}-{timestamp}.{format}.bak`).  These
definitions express that grouping key so that claims about it can be
stated; the code itself computes no such key. -/

def dayOf (e : Entry) : Int := e.mtime / 86400

def splitCharAux (sep : Char) : List Char → List Char → List (List Char)
  | [], acc => [acc]
  | x :: xs, acc =>
    if x = sep then acc :: splitCharAux sep xs [] else splitCharAux sep xs (acc ++ [x])

/-- The `{domain}-{device}` identity of an artifact filename. -/
def artifactKeyDev (name : String) : List (List Char) :=
  (splitCharAux '-' name.data []).take 2

/-! ### Concrete demonstration inputs -/

def nmExp1 : String := "vm1-vda-20250101_000000.qcow2.bak"

def nmExp2 : String := "vm1-vda-20250102_000000.qcow2.bak"

def nmDay1 : String := "vm1-vda-20250103_000100.qcow2.bak"

def nmDay2 : String := "vm1-vda-20250103_000200.qcow2.bak"

def eExp1 : Entry := ⟨nmExp1, true, 0⟩

def eExp2 : Entry := ⟨nmExp2, true, 5⟩

def eDay1 : Entry := ⟨nmDay1, true, 100⟩

def eDay2 : Entry := ⟨nmDay2, true, 200⟩

/-- A backing path whose directory component carries the dirty marker
while its basename is clean. -/
def pthDirtyDir : String := "/vms/a_snapshot_b/disk.qcow2"

def devVda : String := "vda"

def xdClean : XmlDisk := ⟨some devVda, some pthDirtyDir, 100⟩

def demoWorld : World := ⟨true, true, false, true, false, [], [xdClean], 1000, .success⟩

def demoCfgLibvirt : Config := ⟨[devVda], 10, .libvirt⟩

def demoCfgSnapshot : Config := ⟨[devVda], 10, .snapshot⟩

/-- World for the retention-before-validation counterexample: the
backup directory holds one expired artifact and the requested disk is
absent from the domain XML. -/
def valFailWorld : World := ⟨true, true, false, true, true, [eExp1], [], 1000, .success⟩

def answerNo : String := "n"

/-! ### Retention membership lemmas -/

theorem mem_retentionRemoved {dx : Bool} {entries : List Entry} {cutoff : Int} {e : Entry} :
    e ∈ retentionRemoved dx entries cutoff ↔
      dx = true ∧ e ∈ entries ∧ isBakFile e = true ∧ e.mtime < cutoff := by
  cases dx <;>
    simp [retentionRemoved, List.mem_filter, decide_eq_true_eq, and_assoc, and_comm]

theorem mem_retentionSurvivors {dx : Bool} {entries : List Entry} {cutoff : Int} {e : Entry} :
    e ∈ retentionSurvivors dx entries cutoff ↔
      e ∈ entries ∧ e ∉ retentionRemoved dx entries cutoff := by
  simp [retentionSurvivors, List.mem_filter, decide_eq_true_eq]

/-! ### Disk resolution lemmas -/

theorem resolvable_cons {d : XmlDisk} {ds : List XmlDisk} {dev : String} :
    Resolvable (d :: ds) dev ↔
      (d.targetDev = some dev ∧ d.sourceFile.isSome = true) ∨ Resolvable ds dev := by
  simp [Resolvable, List.mem_cons, or_and_right, exists_or, exists_eq_or_imp]

theorem mem_resolveDisks_acc (xml : List XmlDisk) :
    ∀ (acc : List DiskDetail) (rem : List String) (x : DiskDetail),
      x ∈ acc → x ∈ (resolveDisks xml acc rem).1 := by
  induction xml with
  | nil => intro acc rem x hx; simpa [resolveDisks] using hx
  | cons d ds ih =>
    intro acc rem x hx
    simp only [resolveDisks]
    cases hd : d.targetDev with
    | none => exact ih acc rem x hx
    | some name =>
      by_cases hmem : name ∈ rem
      · simp only [hmem, if_pos]
        cases hs : d.sourceFile with
        | none => exact ih acc rem x hx
        | some p =>
          exact ih (acc ++ [⟨name, p, d.sourceSize⟩]) (rem.erase name) x
            (List.mem_append_left _ hx)
      · simp only [hmem, if_neg, not_false_eq_true]
        exact ih acc rem x hx

theorem resolveDisks_remaining (xml : List XmlDisk) :
    ∀ (acc : List DiskDetail) (rem : List String), rem.Nodup →
      ∀ dev, dev ∈ (resolveDisks xml acc rem).2 ↔ dev ∈ rem ∧ ¬ Resolvable xml dev := by
  induction xml with
  | nil =>
    intro acc rem _ dev
    simp [resolveDisks, Resolvable]
  | cons d ds ih =>
    intro acc rem hnd dev
    obtain ⟨tgt, src, sz⟩ := d
    cases tgt with
    | none =>
      show dev ∈ (resolveDisks ds acc rem).2 ↔ _
      rw [ih acc rem hnd dev, resolvable_cons]
      simp
    | some name =>
      by_cases hmem : name ∈ rem
      · cases src with
        | none =>
          show dev ∈ (if name ∈ rem then resolveDisks ds acc rem
            else resolveDisks ds acc rem).2 ↔ _
          rw [if_pos hmem, ih acc rem hnd dev, resolvable_cons]
          simp
        | some p =>
          show dev ∈ (if name ∈ rem then
              resolveDisks ds (acc ++ [⟨name, p, sz⟩]) (rem.erase name)
            else resolveDisks ds acc rem).2 ↔ _
          rw [if_pos hmem,
            ih (acc ++ [(⟨name, p, sz⟩ : DiskDetail)]) (rem.erase name) (hnd.erase name) dev,
            resolvable_cons]
          by_cases hdev : dev = name
          · subst hdev
            simp [hnd.mem_erase_iff]
          · rw [List.mem_erase_of_ne hdev]
            constructor
            · rintro ⟨h1, h2⟩
              refine ⟨h1, ?_⟩
              rintro (⟨heq, _⟩ | hres)
              · exact hdev (Option.some_injective _ heq).symm
              · exact h2 hres
            · rintro ⟨h1, h2⟩
              exact ⟨h1, fun hres => h2 (Or.inr hres)⟩
      · cases src with
        | none =>
          show dev ∈ (if name ∈ rem then resolveDisks ds acc rem
            else resolveDisks ds acc rem).2 ↔ _
          rw [if_neg hmem, ih acc rem hnd dev, resolvable_cons]
          constructor
          · rintro ⟨h1, h2⟩
            exact ⟨h1, by
              rintro (⟨_, hss⟩ | hres)
              · exact absurd hss (by simp)
              · exact h2 hres⟩
          · rintro ⟨h1, h2⟩
            exact ⟨h1, fun hres => h2 (Or.inr hres)⟩
        | some p =>
          show dev ∈ (if name ∈ rem then
              resolveDisks ds (acc ++ [⟨name, p, sz⟩]) (rem.erase name)
            else resolveDisks ds acc rem).2 ↔ _
          rw [if_neg hmem, ih acc rem hnd dev, resolvable_cons]
          constructor
          · rintro ⟨h1, h2⟩
            exact ⟨h1, by
              rintro (⟨heq, _⟩ | hres)
              · exact hmem (by
                  have hne : dev = name := Option.some_injective _ heq.symm
                  rwa [← hne])
              · exact h2 hres⟩
          · rintro ⟨h1, h2⟩
            exact ⟨h1, fun hres => h2 (Or.inr hres)⟩

theorem resolveDisks_covers (xml : List XmlDisk) :
    ∀ (acc : List DiskDetail) (rem : List String) (dev : String),
      dev ∈ rem → dev ∉ (resolveDisks xml acc rem).2 →
        (resolveDisks xml acc rem).1.any (fun dd => dd.dev == dev) = true := by
  induction xml with
  | nil =>
    intro acc rem dev h1 h2
    exact absurd h1 (by simpa [resolveDisks] using h2)
  | cons d ds ih =>
    intro acc rem dev h1 h2
    obtain ⟨tgt, src, sz⟩ := d
    cases tgt with
    | none => exact ih acc rem dev h1 h2
    | some name =>
      by_cases hmem : name ∈ rem
      · cases src with
        | none =>
          have h2' : dev ∉ (if name ∈ rem then resolveDisks ds acc rem
            else resolveDisks ds acc rem).2 := h2
          rw [if_pos hmem] at h2'
          show ((if name ∈ rem then resolveDisks ds acc rem
            else resolveDisks ds acc rem).1.any (fun dd => dd.dev == dev)) = true
          rw [if_pos hmem]
          exact ih acc rem dev h1 h2'
        | some p =>
          have h2' : dev ∉ (if name ∈ rem then
              resolveDisks ds (acc ++ [⟨name, p, sz⟩]) (rem.erase name)
            else resolveDisks ds acc rem).2 := h2
          rw [if_pos hmem] at h2'
          show ((if name ∈ rem then
              resolveDisks ds (acc ++ [⟨name, p, sz⟩]) (rem.erase name)
            else resolveDisks ds acc rem).1.any (fun dd => dd.dev == dev)) = true
          rw [if_pos hmem]
          by_cases hdev : dev = name
          · subst hdev
            have hx : (⟨dev, p, sz⟩ : DiskDetail) ∈
                (resolveDisks ds (acc ++ [⟨dev, p, sz⟩]) (rem.erase dev)).1 :=
              mem_resolveDisks_acc ds _ _ _
                (List.mem_append_right _ (List.mem_singleton.mpr rfl))
            exact List.any_eq_true.mpr ⟨_, hx, by simp⟩
          · have h1' : dev ∈ rem.erase name := (List.mem_erase_of_ne hdev).mpr h1
            exact ih (acc ++ [⟨name, p, sz⟩]) (rem.erase name) dev h1' h2'
      · cases src with
        | none =>
          have h2' : dev ∉ (if name ∈ rem then resolveDisks ds acc rem
            else resolveDisks ds acc rem).2 := h2
          rw [if_neg hmem] at h2'
          show ((if name ∈ rem then resolveDisks ds acc rem
            else resolveDisks ds acc rem).1.any (fun dd => dd.dev == dev)) = true
          rw [if_neg hmem]
          exact ih acc rem dev h1 h2'
        | some p =>
          have h2' : dev ∉ (if name ∈ rem then
              resolveDisks ds (acc ++ [⟨name, p, sz⟩]) (rem.erase name)
            else resolveDisks ds acc rem).2 := h2
          rw [if_neg hmem] at h2'
          show ((if name ∈ rem then
              resolveDisks ds (acc ++ [⟨name, p, sz⟩]) (rem.erase name)
            else resolveDisks ds acc rem).1.any (fun dd => dd.dev == dev)) = true
          rw [if_neg hmem]
          exact ih acc rem dev h1 h2'

/-! ### Pipeline summary lemmas -/

theorem preEvs_clean (jobActive : Bool) (retlist : List Entry) :
    ((Ev.connect :: (if jobActive then [Ev.domJobAbort] else []) ++
      retlist.map (fun e => Ev.retentionDelete e.name) ++ [Ev.mkdirBackupDir]).all
        (fun e => !isBackupEv e)) = true := by
  cases jobActive <;>
    simp [isBackupEv, List.all_append, List.all_map, Function.comp, List.all_eq_true]

theorem run_backup_exit (w : World) (c : Config) :
    (run_backup w c).1 = if validationFailsB w c then 1 else exitOfPhase w.phase := by
  unfold run_backup validationFailsB
  rcases hr : get_disk_details_from_xml w.xmlDisks c.diskTargets with miss | det <;>
    cases hc : w.connOk <;> cases hd : w.domainExists <;>
      cases hj : w.jobActive <;> cases ha : w.jobAbortOk <;>
        simp only [hr, Bool.not_true, Bool.not_false, Bool.true_and, Bool.false_and,
          Bool.true_or, Bool.false_or, Bool.or_true, Bool.or_false, Bool.and_true,
          Bool.and_false, if_true, if_false, ite_true, ite_false] <;>
        first
          | rfl
          | (cases hdi : det.any isDirty <;>
              cases hsp : check_available_space w.freeBytes (det.map (fun d => d.size)) <;>
                simp [hdi, hsp, exitOfPhase])

theorem run_backup_trace_clean (w : World) (c : Config)
    (h : validationFailsB w c = true) :
    (run_backup w c).2.all (fun e => !isBackupEv e) = true := by
  unfold validationFailsB at h
  unfold run_backup
  rcases hr : get_disk_details_from_xml w.xmlDisks c.diskTargets with miss | det <;>
    cases hc : w.connOk <;> cases hd : w.domainExists <;>
      cases hj : w.jobActive <;> cases ha : w.jobAbortOk <;>
        simp only [hr, Bool.not_true, Bool.not_false, if_true, if_false,
          ite_true, ite_false] <;>
        first
          | rfl
          | exact preEvs_clean false _
          | exact preEvs_clean true _
          | (cases hdi : det.any isDirty <;>
              cases hsp : check_available_space w.freeBytes (det.map (fun d => d.size)) <;>
                simp only [hdi, hsp, Bool.not_true, Bool.not_false, Bool.true_or,
                  Bool.false_or, Bool.or_true, Bool.or_false, if_true, if_false,
                  ite_true, ite_false] <;>
                first
                  | exact preEvs_clean false _
                  | exact preEvs_clean true _
                  | (rw [hc, hd, hj, ha, hr] at h; simp [hdi, hsp] at h))

/-! ### Additional concrete inputs for witnesses -/

/-- A backing path whose basename itself carries the dirty marker. -/
def pthDirtyBase : String := "/vms/vm1_vda_snapshot_20250101.qcow2"

def xdDirty : XmlDisk := ⟨some devVda, some pthDirtyBase, 100⟩

def dirtyWorld : World := ⟨true, true, false, true, false, [], [xdDirty], 1000, .success⟩

/-! ## Claim theorems -/

/-- C1, counterexample: a directory with two `.bak` artifacts both older
than the cutoff.  The claim says retention keeps exactly one (the most
recent); the code's age-only loop deletes both, leaving zero. -/
theorem c1_counterexample :
    isBakFile eExp1 = true ∧ isBakFile eExp2 = true ∧
    eExp1.mtime < 10 ∧ eExp2.mtime < 10 ∧
    retentionSurvivors true [eExp1, eExp2] 10 = [] := by decide

/-- C1 (amended): when every `.bak` artifact in the backup directory is
older than the retention cutoff, retention deletes them all — no
most-recent artifact is rescued, and the domain can end the run with
zero artifacts. -/
theorem c1_amended_all_expired_removed (entries : List Entry) (cutoff : Int)
    (h : ∀ e ∈ entries, isBakFile e = true → e.mtime < cutoff) :
    (retentionSurvivors true entries cutoff).filter isBakFile = [] := by
  rw [List.filter_eq_nil_iff]
  intro e he hbak
  rcases mem_retentionSurvivors.mp he with ⟨hin, hnot⟩
  exact hnot (mem_retentionRemoved.mpr ⟨rfl, hin, hbak, h e hin hbak⟩)

/-- C1 witness: the amended statement at the concrete all-expired
directory. -/
theorem c1_amended_witness :
    (retentionSurvivors true [eExp1, eExp2] 10).filter isBakFile = [] :=
  c1_amended_all_expired_removed [eExp1, eExp2] 10 (by decide)

/-- C2, counterexample: a one-disk Strategy B run interrupted during the
copy phase keeps the partial `.bak` artifact (exit 130), while the same
failure as an ordinary error removes it (exit 1) — so an interrupt is
not handled identically to a failure, and a partial artifact remains. -/
theorem c2_counterexample :
    snapshotRsyncRun 1 (some (.copyPhase 0, .intr)) = ([0], 130) ∧
    snapshotRsyncRun 1 (some (.copyPhase 0, .err)) = ([], 1) ∧
    (snapshotRsyncRun 1 (some (.copyPhase 0, .intr))).1 ≠
      (snapshotRsyncRun 1 (some (.copyPhase 0, .err))).1 := by decide

/-- C2 (amended): an ordinary `Exception` during the copy phase removes
every `.bak` artifact registered for the run and exits 1, but a
`KeyboardInterrupt` during the copy phase bypasses the cleanup handler
(`except Exception` does not catch `BaseException`), leaving the
already-written and partial artifacts on disk and exiting 130. -/
theorem c2_amended_cleanup (n i : Nat) (h : i < n) :
    snapshotRsyncRun n (some (.copyPhase i, .err)) = ([], 1) ∧
    snapshotRsyncRun n (some (.copyPhase i, .intr)) = (List.range (i + 1), 130) := by
  refine ⟨rfl, ?_⟩
  show (List.range (min (i + 1) n), 130) = (List.range (i + 1), 130)
  rw [min_eq_left (Nat.succ_le_of_lt h)]

/-- C2 witness: the amended statement at a concrete two-disk run
interrupted while copying the first disk. -/
theorem c2_amended_cleanup_witness :
    snapshotRsyncRun 2 (some (.copyPhase 0, .err)) = ([], 1) ∧
    snapshotRsyncRun 2 (some (.copyPhase 0, .intr)) = (List.range 1, 130) :=
  c2_amended_cleanup 2 0 (by decide)

/-! ### Binary64 rounding lemmas for the space check -/

theorem bitlenFuel_le (fuel : Nat) :
    ∀ k n : Nat, n < 2 ^ k → k ≤ fuel → bitlenFuel fuel n ≤ k := by
  induction fuel with
  | zero => intro k n _ _; simp [bitlenFuel]
  | succ f ih =>
    intro k n hn hk
    by_cases h0 : n = 0
    · simp [bitlenFuel, h0]
    · cases k with
      | zero => exact absurd hn (by omega)
      | succ k' =>
        have hdiv : n / 2 < 2 ^ k' := by
          rw [Nat.div_lt_iff_lt_mul (by norm_num : 0 < 2)]
          calc n < 2 ^ (k' + 1) := hn
            _ = 2 ^ k' * 2 := by rw [pow_succ]
        have := ih k' (n / 2) hdiv (by omega)
        simp only [bitlenFuel, h0, if_false]
        omega

theorem bitlenFuel_pow_le (fuel : Nat) :
    ∀ n : Nat, 0 < n → n < 2 ^ fuel → 2 ^ bitlenFuel fuel n ≤ 2 * n := by
  induction fuel with
  | zero => intro n h0 h1; exact absurd h1 (by omega)
  | succ f ih =>
    intro n h0 h1
    have h0' : n ≠ 0 := Nat.pos_iff_ne_zero.mp h0
    simp only [bitlenFuel, h0', if_false]
    by_cases hh : n / 2 = 0
    · have hb : bitlenFuel f (n / 2) = 0 := by
        cases f <;> simp [bitlenFuel, hh]
      rw [hb]
      omega
    · have hdiv : n / 2 < 2 ^ f := by
        rw [Nat.div_lt_iff_lt_mul (by norm_num : 0 < 2)]
        calc n < 2 ^ (f + 1) := h1
          _ = 2 ^ f * 2 := by rw [pow_succ]
      have := ih (n / 2) (Nat.pos_iff_ne_zero.mpr hh) hdiv
      rw [pow_succ]
      omega

theorem bitlenFuel_upper (fuel : Nat) :
    ∀ n : Nat, n < 2 ^ fuel → n < 2 ^ bitlenFuel fuel n := by
  induction fuel with
  | zero => intro n h1; simpa [bitlenFuel] using h1
  | succ f ih =>
    intro n h1
    by_cases h0 : n = 0
    · simp [bitlenFuel, h0]
    · have hdiv : n / 2 < 2 ^ f := by
        rw [Nat.div_lt_iff_lt_mul (by norm_num : 0 < 2)]
        calc n < 2 ^ (f + 1) := h1
          _ = 2 ^ f * 2 := by rw [pow_succ]
      have := ih (n / 2) hdiv
      simp only [bitlenFuel, h0, if_false]
      rw [pow_succ]
      omega

/-- Round-to-nearest error bound of `round53`: the value is within a
relative `2 ^ (-53)` of the input, stated by cross-multiplication. -/
theorem round53val_bounds (M : Nat) (hM : M < 2 ^ 1200) :
    M * (2 ^ 53 - 1) ≤ round53val M * 2 ^ 53 ∧
      round53val M * 2 ^ 53 ≤ M * (2 ^ 53 + 1) := by
  unfold round53val round53
  by_cases hL : bitlen M ≤ 53
  · simp only [hL, if_true, pow_zero, mul_one]
    constructor
    · exact Nat.mul_le_mul_left M (by omega)
    · exact Nat.mul_le_mul_left M (by omega)
  · simp only [hL, if_false]
    have hLgt : 53 < bitlen M := by omega
    have hM0 : 0 < M := by
      by_contra h
      have : M = 0 := by omega
      subst this
      have : bitlen 0 = 0 := by simp [bitlen, bitlenFuel]
      omega
    have hup : M < 2 ^ bitlen M := bitlenFuel_upper 1200 M hM
    have hlow2 : 2 ^ bitlen M ≤ 2 * M := bitlenFuel_pow_le 1200 M hM0 hM
    have hs1 : 1 ≤ bitlen M - 53 := by omega
    have hPpos : 0 < 2 ^ (bitlen M - 53) := Nat.pos_pow_of_pos _ (by norm_num)
    have hdm := Nat.div_add_mod' M (2 ^ (bitlen M - 53))
    have hrP : M % 2 ^ (bitlen M - 53) < 2 ^ (bitlen M - 53) := Nat.mod_lt _ hPpos
    have h2half : 2 ^ (bitlen M - 54) * 2 = 2 ^ (bitlen M - 53) := by
      rw [← pow_succ]
      congr 1
      omega
    have hhalfM : 2 ^ (bitlen M - 54) * 2 ^ 53 ≤ M := by
      have he : 2 ^ (bitlen M - 54) * 2 ^ 53 * 2 = 2 ^ bitlen M := by
        rw [mul_assoc, ← pow_succ, ← pow_add]
        congr 1
        omega
      omega
    have hvM : ∀ m : Nat,
        M ≤ m * 2 ^ (bitlen M - 53) + 2 ^ (bitlen M - 54) →
        m * 2 ^ (bitlen M - 53) ≤ M + 2 ^ (bitlen M - 54) →
        M * (2 ^ 53 - 1) ≤ m * 2 ^ (bitlen M - 53) * 2 ^ 53 ∧
          m * 2 ^ (bitlen M - 53) * 2 ^ 53 ≤ M * (2 ^ 53 + 1) := by
      intro m hmlow hmhigh
      have hc : (2:Nat) ^ 53 = 9007199254740992 := by norm_num
      rw [hc] at hhalfM ⊢
      constructor
      · nlinarith [hhalfM, hmlow]
      · nlinarith [hhalfM, hmhigh]
    have hdist : (M / 2 ^ (bitlen M - 53) + 1) * 2 ^ (bitlen M - 53) =
        M / 2 ^ (bitlen M - 53) * 2 ^ (bitlen M - 53) + 2 ^ (bitlen M - 53) := by
      ring
    split_ifs with h1 h2 h3
    · refine hvM _ ?_ ?_
      · omega
      · have : 2 ^ (bitlen M - 54) ≤ M % 2 ^ (bitlen M - 53) := by omega
        omega
    · refine hvM _ ?_ ?_
      · omega
      · omega
    · refine hvM _ ?_ ?_
      · omega
      · omega
    · refine hvM _ ?_ ?_
      · omega
      · have : 2 ^ (bitlen M - 54) ≤ M % 2 ^ (bitlen M - 53) := by omega
        omega

/-- Under a realistic total (at most `2 ^ 52` bytes, where the int→float
conversion is exact), the space check succeeds exactly when the rounded
product `fl(sum * fl(1 + fl(0.10)))` is at most the free bytes. -/
theorem check_available_space_iff (freeBytes : Nat) (sizes : List Nat)
    (h : sizes.sum ≤ 2 ^ 52) :
    (check_available_space freeBytes sizes = true ↔
      round53val (sizes.sum * floatMarginNum) ≤ freeBytes * 2 ^ 52) := by
  have hT53 : bitlen sizes.sum ≤ 53 :=
    bitlenFuel_le 1200 53 sizes.sum (by
      calc sizes.sum ≤ 2 ^ 52 := h
        _ < 2 ^ 53 := by norm_num) (by norm_num)
  have hr : round53 sizes.sum = (sizes.sum, 0) := by
    unfold round53
    rw [if_pos hT53]
  have hNUM : floatMarginNum < 2 ^ 53 := by norm_num [floatMarginNum]
  have hM : sizes.sum * floatMarginNum < 2 ^ 1200 := by
    calc sizes.sum * floatMarginNum ≤ 2 ^ 52 * floatMarginNum :=
          Nat.mul_le_mul_right _ h
      _ < 2 ^ 52 * 2 ^ 53 :=
          mul_lt_mul_of_pos_left hNUM (Nat.pos_pow_of_pos _ (by norm_num))
      _ = 2 ^ 105 := by rw [← pow_add]
      _ ≤ 2 ^ 1200 := Nat.pow_le_pow_right (by norm_num) (by norm_num)
  obtain ⟨hlo, hhi⟩ := round53val_bounds (sizes.sum * floatMarginNum) hM
  have hvsmall : round53val (sizes.sum * floatMarginNum) < 2 ^ 106 := by
    have h1 : sizes.sum * floatMarginNum * (2 ^ 53 + 1) < 2 ^ 106 * 2 ^ 53 := by
      have h2 : sizes.sum * floatMarginNum < 2 ^ 105 := by
        have h3 : sizes.sum * floatMarginNum ≤ 2 ^ 52 * floatMarginNum :=
          Nat.mul_le_mul_right _ h
        have h4 : 2 ^ 52 * floatMarginNum < 2 ^ 105 := by norm_num [floatMarginNum]
        omega
      nlinarith
    nlinarith [hhi]
  unfold check_available_space
  rw [hr]
  have hg1 : ¬ (2 ^ 1100 ≤ sizes.sum) := fun hcon =>
    absurd (le_trans hcon h)
      (not_le.mpr (Nat.pow_lt_pow_right (by norm_num) (by norm_num)))
  rw [if_neg hg1]
  have hg2 : ¬ (2 ^ 1024 ≤ sizes.sum * 2 ^ 0) := by
    rw [pow_zero, mul_one]
    intro hcon
    exact absurd (le_trans hcon h)
      (not_le.mpr (Nat.pow_lt_pow_right (by norm_num) (by norm_num)))
  rw [if_neg hg2]
  simp only [pow_zero, mul_one, Nat.add_zero]
  have hval : round53val (sizes.sum * floatMarginNum) =
      (round53 (sizes.sum * floatMarginNum)).1 *
        2 ^ (round53 (sizes.sum * floatMarginNum)).2 := rfl
  by_cases hbr : 52 ≤ (round53 (sizes.sum * floatMarginNum)).2
  · rw [if_pos hbr]
    have hsplit : (round53 (sizes.sum * floatMarginNum)).1 *
        2 ^ ((round53 (sizes.sum * floatMarginNum)).2 - 52) * 2 ^ 52 =
        round53val (sizes.sum * floatMarginNum) := by
      rw [hval, mul_assoc, ← pow_add]
      congr 2
      omega
    have hg3 : ¬ (2 ^ 1024 ≤ (round53 (sizes.sum * floatMarginNum)).1 *
        2 ^ ((round53 (sizes.sum * floatMarginNum)).2 - 52)) := by
      intro hcon
      have h1 : 2 ^ 1024 * 2 ^ 52 ≤ round53val (sizes.sum * floatMarginNum) := by
        rw [← hsplit]
        exact Nat.mul_le_mul_right _ hcon
      have h2 : (2:Nat) ^ 106 < 2 ^ 1024 * 2 ^ 52 := by
        rw [← pow_add]
        exact Nat.pow_lt_pow_right (by norm_num) (by norm_num)
      exact absurd h2 (not_lt.mpr (le_of_lt (lt_of_le_of_lt h1 hvsmall)))
    rw [if_neg hg3]
    rw [Bool.not_eq_eq_eq_not, Bool.not_true, decide_eq_false_iff_not, Nat.not_lt]
    constructor
    · intro hle
      rw [← hsplit]
      exact Nat.mul_le_mul_right _ hle
    · intro hle
      rw [← hsplit] at hle
      exact Nat.le_of_mul_le_mul_right hle (by norm_num)
  · rw [if_neg hbr]
    rw [Bool.not_eq_eq_eq_not, Bool.not_true, decide_eq_false_iff_not, Nat.not_lt]
    have hsplit : freeBytes * 2 ^ (52 - (round53 (sizes.sum * floatMarginNum)).2) *
        2 ^ (round53 (sizes.sum * floatMarginNum)).2 = freeBytes * 2 ^ 52 := by
      rw [mul_assoc, ← pow_add]
      congr 2
      omega
    constructor
    · intro hle
      rw [← hsplit]
      rw [hval]
      exact Nat.mul_le_mul_right _ hle
    · intro hle
      rw [hval] at hle
      rw [← hsplit] at hle
      exact Nat.le_of_mul_le_mul_right hle (Nat.pos_pow_of_pos _ (by norm_num))

/-- C3, counterexample: with one 10^15-byte disk and exactly
1.1×10^15 free bytes the exact 10%-margin boundary is met
(`final_size_needed ≤ free`), so the claim asserts success — but the
program's double-precision product `10^15 * (1 + 0.10)` rounds to
1100000000000000.125 > free, so the check fails. -/
theorem c3_counterexample :
    final_size_needed [1000000000000000] ≤ ((1100000000000000 : Nat) : ℚ) ∧
    check_available_space 1100000000000000 [1000000000000000] = false := by
  constructor
  · unfold final_size_needed SAFETY_MARGIN_PERCENT
    norm_num
  · decide

/-- C3 (amended): the space check compares the free bytes against the
IEEE-double evaluation of `sum * (1 + 0.10)`, not the exact product.
For totals of at most `2 ^ 52` bytes the computed requirement agrees
with the exact `sum * 1.10` to within one part in `2 ^ 52`: any success
implies `free ≥ sum * 1.10 * (1 - 2 ^ (-53))`, and
`free ≥ sum * 1.10 * (1 + 2 ^ (-52))` guarantees success — but success
exactly at the exact boundary is not guaranteed (see the
counterexample).  Stated by cross-multiplication over the integers. -/
theorem c3_amended_float_margin (freeBytes : Nat) (sizes : List Nat)
    (hbound : sizes.sum ≤ 2 ^ 52) :
    (check_available_space freeBytes sizes = true →
      sizes.sum * 110 * (2 ^ 53 - 1) ≤ freeBytes * 100 * 2 ^ 53) ∧
    ((sizes.sum * 110 * (2 ^ 52 + 1) ≤ freeBytes * 100 * 2 ^ 52) →
      check_available_space freeBytes sizes = true) := by
  have hiff := check_available_space_iff freeBytes sizes hbound
  have hNUM : floatMarginNum < 2 ^ 53 := by norm_num [floatMarginNum]
  have hM : sizes.sum * floatMarginNum < 2 ^ 1200 := by
    calc sizes.sum * floatMarginNum ≤ 2 ^ 52 * floatMarginNum :=
          Nat.mul_le_mul_right _ hbound
      _ < 2 ^ 52 * 2 ^ 53 :=
          mul_lt_mul_of_pos_left hNUM (Nat.pos_pow_of_pos _ (by norm_num))
      _ = 2 ^ 105 := by rw [← pow_add]
      _ ≤ 2 ^ 1200 := Nat.pow_le_pow_right (by norm_num) (by norm_num)
  obtain ⟨hlo, hhi⟩ := round53val_bounds (sizes.sum * floatMarginNum) hM
  have hnum : floatMarginNum = 4953959590107546 := rfl
  have hc53 : (2:Nat) ^ 53 = 9007199254740992 := by norm_num
  have hc52 : (2:Nat) ^ 52 = 4503599627370496 := by norm_num
  rw [hnum, hc53] at hlo hhi
  rw [hc53, hc52]
  constructor
  · intro hchk
    have hv := hiff.mp hchk
    rw [hnum, hc52] at hv
    omega
  · intro hfree
    apply hiff.mpr
    rw [hnum, hc52]
    omega

/-- C3 witness: the amended statement's success direction at a concrete
run (one 100-byte disk, 111 free bytes, comfortably above the margin). -/
theorem c3_amended_float_margin_witness :
    check_available_space 111 [100] = true :=
  (c3_amended_float_margin 111 [100] (by decide)).2 (by decide)

/-- C4, counterexample: two `.bak` artifacts of the same calendar day
and the same domain+device identity, both newer than the cutoff.  The
claim says retention keeps only the newest of such a group; the code
keeps both (it computes no grouping at all). -/
theorem c4_counterexample :
    dayOf eDay1 = dayOf eDay2 ∧ artifactKeyDev nmDay1 = artifactKeyDev nmDay2 ∧
    isBakFile eDay1 = true ∧ isBakFile eDay2 = true ∧
    retentionSurvivors true [eDay1, eDay2] 0 = [eDay1, eDay2] := by decide

/-- C4 (amended): retention performs no same-day de-duplication; every
entry not older than the cutoff survives the retention pass unchanged,
even when several artifacts share the same (day, device) group.  Only
age can cause a deletion. -/
theorem c4_amended_no_dedup (entries : List Entry) (cutoff : Int) (e : Entry)
    (h1 : e ∈ entries) (h2 : cutoff ≤ e.mtime) :
    e ∈ retentionSurvivors true entries cutoff := by
  refine mem_retentionSurvivors.mpr ⟨h1, fun hmem => ?_⟩
  exact absurd (mem_retentionRemoved.mp hmem).2.2.2 (not_lt.mpr h2)

/-- C4 witness: the amended statement at the concrete same-day pair. -/
theorem c4_amended_no_dedup_witness :
    eDay2 ∈ retentionSurvivors true [eDay1, eDay2] 0 :=
  c4_amended_no_dedup [eDay1, eDay2] 0 eDay2 (by decide) (by decide)

/-- C5, counterexample: a resolved backing path that contains the dirty
marker in a directory component but not in its basename.  The claim
says any path containing the marker is rejected with exit 1; the code
checks only `os.path.basename(path)`, so this run proceeds, submits the
backup job, and exits 0. -/
theorem c5_counterexample :
    containsSub pthDirtyDir snapshotMarker = true ∧
    run_backup demoWorld demoCfgLibvirt =
      (0, [Ev.connect, Ev.mkdirBackupDir, Ev.backupSubmit]) := by decide

/-- C5 (amended): if the basename (final path component) of any
resolved disk's backing path contains the `_snapshot_` marker, the run
exits with status 1 and its trace contains no snapshot creation, no
backup-job submission, and no artifact write. -/
theorem c5_amended_basename_dirty (w : World) (c : Config) (details : List DiskDetail)
    (hres : get_disk_details_from_xml w.xmlDisks c.diskTargets = .ok details)
    (hdirty : details.any isDirty = true) :
    (run_backup w c).1 = 1 ∧
    (run_backup w c).2.all (fun e => !isBackupEv e) = true := by
  have hv : validationFailsB w c = true := by
    unfold validationFailsB
    rw [hres]
    simp [hdirty]
  constructor
  · rw [run_backup_exit, hv]
    rfl
  · exact run_backup_trace_clean w c hv

/-- C5 witness: the amended statement at a concrete world whose single
disk has the marker in its basename. -/
theorem c5_amended_basename_dirty_witness :
    (run_backup dirtyWorld demoCfgLibvirt).1 = 1 ∧
    (run_backup dirtyWorld demoCfgLibvirt).2.all (fun e => !isBackupEv e) = true :=
  c5_amended_basename_dirty dirtyWorld demoCfgLibvirt
    [⟨devVda, pthDirtyBase, 100⟩] (by rfl) (by decide)

/-- C6: disk resolution either succeeds with an entry for every
requested device, or fails naming exactly the requested devices that no
XML disk element (with a source file) resolves; it never reports
success with a partial mapping. -/
theorem disk_resolution_total_or_named (xml : List XmlDisk) (reqs : List String) :
    (∀ details, get_disk_details_from_xml xml reqs = .ok details →
      ∀ dev ∈ reqs, details.any (fun dd => dd.dev == dev) = true) ∧
    (∀ missing, get_disk_details_from_xml xml reqs = .error missing →
      ∀ dev, dev ∈ missing ↔ dev ∈ reqs ∧ ¬ Resolvable xml dev) := by
  constructor
  · intro details hok dev hdev
    unfold get_disk_details_from_xml at hok
    by_cases hemp : (resolveDisks xml [] reqs.dedup).2.isEmpty
    · rw [if_pos hemp] at hok
      have hdet : details = (resolveDisks xml [] reqs.dedup).1 :=
        (Except.ok.inj hok).symm
      rw [hdet]
      refine resolveDisks_covers xml [] reqs.dedup dev (List.mem_dedup.mpr hdev) ?_
      rw [List.isEmpty_iff] at hemp
      simp [hemp]
    · rw [if_neg hemp] at hok
      exact absurd hok (by simp)
  · intro missing herr dev
    unfold get_disk_details_from_xml at herr
    by_cases hemp : (resolveDisks xml [] reqs.dedup).2.isEmpty
    · rw [if_pos hemp] at herr
      exact absurd herr (by simp)
    · rw [if_neg hemp] at herr
      have hm : missing = (resolveDisks xml [] reqs.dedup).2 :=
        (Except.error.inj herr).symm
      rw [hm, resolveDisks_remaining xml [] reqs.dedup reqs.nodup_dedup dev,
        List.mem_dedup]

/-- C6 witness: both branches at concrete inputs — a resolvable request
is covered by the returned details, and an unresolvable request is
named in the failure. -/
theorem disk_resolution_total_or_named_witness :
    List.any [(⟨devVda, pthDirtyDir, 100⟩ : DiskDetail)] (fun dd => dd.dev == devVda) = true ∧
    (devVda ∈ [devVda] ↔ devVda ∈ [devVda] ∧ ¬ Resolvable [] devVda) :=
  ⟨(disk_resolution_total_or_named [xdClean] [devVda]).1
      [⟨devVda, pthDirtyDir, 100⟩] (by rfl) devVda (by decide),
    (disk_resolution_total_or_named [] [devVda]).2 [devVda] (by rfl) devVda⟩

/-- C7, counterexample: a run whose backup directory holds an expired
artifact and whose requested disk is absent from the domain XML.  The
claim says no retention deletion or directory creation precedes the
completion of all validation checks; the code runs retention (deleting
the artifact) and creates the directory before disk resolution, which
then fails validation. -/
theorem c7_counterexample :
    validationFailsB valFailWorld demoCfgLibvirt = true ∧
    run_backup valFailWorld demoCfgLibvirt =
      (1, [Ev.connect, Ev.retentionDelete nmExp1, Ev.mkdirBackupDir]) := by decide

/-- C7 (amended): every validation failure (unknown domain, failed job
abort, unresolvable disk, dirty disk path, insufficient space) exits
with status 1 before any snapshot, backup-job submission, or artifact
write — but retention deletions and backup-directory creation occur
before disk resolution and the dirty/space checks, so they may precede
a validation failure. -/
theorem c7_amended_validation_halts (w : World) (c : Config)
    (h : validationFailsB w c = true) :
    (run_backup w c).1 = 1 ∧
    (run_backup w c).2.all (fun e => !isBackupEv e) = true := by
  constructor
  · rw [run_backup_exit, h]
    rfl
  · exact run_backup_trace_clean w c h

/-- C7 witness: the amended statement at the concrete
retention-before-validation world. -/
theorem c7_amended_validation_halts_witness :
    (run_backup valFailWorld demoCfgLibvirt).1 = 1 ∧
    (run_backup valFailWorld demoCfgLibvirt).2.all (fun e => !isBackupEv e) = true :=
  c7_amended_validation_halts valFailWorld demoCfgLibvirt (by decide)

/-- C8: the process exit status is 0 exactly when validation passes and
the backup phase succeeds, 130 exactly when validation passes and the
user interrupts, and 1 exactly on a validation or execution failure. -/
theorem c8_exit_codes (w : World) (c : Config) :
    ((run_backup w c).1 = 0 ↔ validationFailsB w c = false ∧ w.phase = .success) ∧
    ((run_backup w c).1 = 130 ↔ validationFailsB w c = false ∧ w.phase = .interrupt) ∧
    ((run_backup w c).1 = 1 ↔ validationFailsB w c = true ∨ w.phase = .error) := by
  rw [run_backup_exit]
  cases hv : validationFailsB w c <;> cases hph : w.phase <;> decide

/-- C9: in snapshot mode the program reads the interactive confirmation
before any hypervisor connection appears in the trace, and unless the
stripped, lowercased answer is `y` it exits with status 1 having
performed no action at all. -/
theorem c9_snapshot_confirmation (ans : String) (w : World) (c : Config)
    (hmode : c.mode = .snapshot) :
    (stripLower ans ≠ yesAnswer → mainRun ans w c = (1, [Ev.readConfirm])) ∧
    (∀ i, (mainRun ans w c).2.get? i = some Ev.connect →
      ∃ j, j < i ∧ (mainRun ans w c).2.get? j = some Ev.readConfirm) := by
  unfold mainRun
  simp only [hmode]
  by_cases hy : stripLower ans = yesAnswer
  · rw [if_pos hy]
    constructor
    · intro hne
      exact absurd hy hne
    · intro i hi
      cases i with
      | zero => simp at hi
      | succ n => exact ⟨0, Nat.succ_pos n, rfl⟩
  · rw [if_neg hy]
    constructor
    · intro _
      rfl
    · intro i hi
      cases i with
      | zero => simp at hi
      | succ n => simp at hi

/-- C9 witness: a refused confirmation at a concrete answer exits 1
with nothing but the stdin read in the trace. -/
theorem c9_snapshot_confirmation_witness :
    mainRun answerNo demoWorld demoCfgSnapshot = (1, [Ev.readConfirm]) :=
  (c9_snapshot_confirmation answerNo demoWorld demoCfgSnapshot rfl).1 (by decide)

/-- C10: retention deletes only regular files whose name ends in `.bak`
and whose modification time is strictly before the cutoff; every entry
that is not a regular file, lacks the suffix, or is not older than the
cutoff survives the retention pass. -/
theorem c10_retention_frame (dx : Bool) (entries : List Entry) (cutoff : Int) :
    (∀ e ∈ retentionRemoved dx entries cutoff,
      e ∈ entries ∧ e.isFile = true ∧ strEnds e.name bakSuffix = true ∧
        e.mtime < cutoff) ∧
    (∀ e ∈ entries,
      (e.isFile = false ∨ strEnds e.name bakSuffix = false ∨ cutoff ≤ e.mtime) →
        e ∈ retentionSurvivors dx entries cutoff) := by
  constructor
  · intro e he
    rcases mem_retentionRemoved.mp he with ⟨_, h1, h2, h3⟩
    simp only [isBakFile, Bool.and_eq_true] at h2
    exact ⟨h1, h2.1, h2.2, h3⟩
  · intro e he hcond
    refine mem_retentionSurvivors.mpr ⟨he, fun hmem => ?_⟩
    rcases mem_retentionRemoved.mp hmem with ⟨_, _, hbak, hm⟩
    simp only [isBakFile, Bool.and_eq_true] at hbak
    rcases hcond with h | h | h
    · rw [h] at hbak
      exact absurd hbak.1 (by simp)
    · rw [h] at hbak
      exact absurd hbak.2 (by simp)
    · exact absurd hm (not_lt.mpr h)

/-- C10 witness: a fresh artifact survives the retention pass. -/
theorem c10_retention_frame_witness :
    eExp2 ∈ retentionSurvivors true [eExp2] 3 :=
  (c10_retention_frame true [eExp2] 3).2 eExp2 (by decide) (by decide)

end SpiralSRV
